import Mathlib

/-!
Verification of the deposit-ledger subsystem: the BitGo webhook deposit
ingestor (`handleDeposit`), the address provisioner (`generateUserAddresses`),
and the webhook front door (`router.post('/bitgo')`), shallowly embedded from
the JavaScript source.  Amounts are JavaScript numbers, modelled as exact
rationals extended with NaN and the two infinities; the relational store is a
record of row lists with the SQL operations the code issues (find-first
lookups, appends, and the `ON CONFLICT` upsert/ignore forms).
-/

namespace TempUploads

/-! ### JavaScript number model -/

/-- An exact rational as an unnormalised fraction of integers.  Every value
this development constructs keeps `d` positive, so `n`'s sign is the value's
sign.  (This representation is chosen over `ℚ` because its operations are
plain integer arithmetic, which the kernel evaluates on concrete inputs;
`toRat` gives the represented rational.) -/
structure JsRat where
  n : ℤ
  d : ℤ
deriving DecidableEq

/-- The rational a `JsRat` represents. -/
def JsRat.toRat (x : JsRat) : ℚ := (x.n : ℚ) / (x.d : ℚ)

/-- A JavaScript number: NaN, +Infinity, -Infinity, or a finite value
(idealised as an exact rational; none of the verified properties depend on
binary-float rounding). -/
inductive JsNum where
  | nan : JsNum
  | inf : JsNum
  | ninf : JsNum
  | num : JsRat → JsNum
deriving DecidableEq

/-- `isNaN(x)`. -/
def jsIsNaN : JsNum → Bool
  | .nan => true
  | _ => false

/-- The JavaScript comparison `x <= 0` (false on NaN; on a finite value with
positive denominator this is the numerator's sign). -/
def jsLe0 : JsNum → Bool
  | .nan => false
  | .inf => false
  | .ninf => true
  | .num q => q.n ≤ 0

/-- JavaScript addition on numbers. -/
def jsAdd : JsNum → JsNum → JsNum
  | .nan, _ => .nan
  | _, .nan => .nan
  | .inf, .ninf => .nan
  | .ninf, .inf => .nan
  | .inf, _ => .inf
  | _, .inf => .inf
  | .ninf, _ => .ninf
  | _, .ninf => .ninf
  | .num a, .num b => .num ⟨a.n * b.d + b.n * a.d, a.d * b.d⟩

/-- JavaScript division `x / r` where `r` is a dictionary lookup that may be
`undefined` (division by `undefined` is NaN).  Division by a zero divisor
follows the `+0` sign convention; the registry's divisors are all positive so
that branch is never exercised.  The result keeps a positive denominator. -/
def jsDiv : JsNum → Option JsRat → JsNum
  | _, none => .nan
  | .nan, some _ => .nan
  | .inf, some r => if 0 < r.n then .inf else if r.n < 0 then .ninf else .inf
  | .ninf, some r => if 0 < r.n then .ninf else if r.n < 0 then .inf else .ninf
  | .num q, some r =>
      if r.n = 0 then (if 0 < q.n then .inf else if q.n < 0 then .ninf else .nan)
      else if 0 < r.n then .num ⟨q.n * r.d, q.d * r.n⟩
      else .num ⟨-(q.n * r.d), q.d * -r.n⟩

/-! ### `parseFloat` model

JavaScript `parseFloat` skips leading whitespace and converts the longest
prefix that matches the decimal-literal grammar (optional sign, `Infinity`,
digits with optional fraction and optional exponent); if no prefix matches it
returns NaN. -/

/-- Whitespace skipped by `parseFloat` (the common ASCII cases). -/
def isJsWhitespace (c : Char) : Bool :=
  c = ' ' || c = '\t' || c = '\n' || c = '\r' || c = '\x0b' || c = '\x0c'

/-- Value of a digit string, most significant first. -/
def digitsVal (l : List Char) : ℕ :=
  l.foldl (fun a c => 10 * a + (c.toNat - '0'.toNat)) 0

/-- `l` starts with the character sequence `p`. -/
def startsWithChars : List Char → List Char → Bool
  | [], _ => true
  | _ :: _, [] => false
  | p :: ps, c :: cs => p = c && startsWithChars ps cs

/-- Strip an optional sign, returning (negative?, rest). -/
def splitSign : List Char → Bool × List Char
  | c :: r => if c = '+' then (false, r) else if c = '-' then (true, r) else (false, c :: r)
  | [] => (false, [])

/-- Consume an optional fraction `. digits`, returning (fraction digits, rest). -/
def splitFrac : List Char → List Char × List Char
  | c :: r =>
      if c = '.' then (r.takeWhile Char.isDigit, r.dropWhile Char.isDigit) else ([], c :: r)
  | [] => ([], [])

/-- Value of a run of exponent digits; an empty run means the exponent part is
ill-formed and contributes nothing. -/
def expDigits (r : List Char) : ℤ :=
  let ds := r.takeWhile Char.isDigit
  if ds.isEmpty then 0 else (digitsVal ds : ℤ)

/-- Exponent value of an optional trailing `e`/`E` exponent part; an
ill-formed exponent is not part of the longest valid prefix and contributes
nothing (e.g. `parseFloat("1e+") == 1`). -/
def parseExponent : List Char → ℤ
  | c :: rest =>
    if c = 'e' || c = 'E' then
      match rest with
      | c2 :: r2 =>
          if c2 = '+' then expDigits r2
          else if c2 = '-' then -expDigits r2
          else expDigits (c2 :: r2)
      | [] => 0
    else 0
  | [] => 0

/-- Scale a fraction by a power of ten. -/
def applyExp (q : JsRat) (e : ℤ) : JsRat :=
  if 0 ≤ e then ⟨q.n * 10 ^ e.toNat, q.d⟩ else ⟨q.n, q.d * 10 ^ (-e).toNat⟩

def infinityChars : List Char := ['I', 'n', 'f', 'i', 'n', 'i', 't', 'y']

/-- JavaScript `parseFloat`, working on the string's character list. -/
def jsParseFloatChars (cs0 : List Char) : JsNum :=
  let cs := cs0.dropWhile isJsWhitespace
  let sgn := splitSign cs
  let neg := sgn.1
  let cs1 := sgn.2
  if startsWithChars infinityChars cs1 then (if neg then .ninf else .inf)
  else
    let ds := cs1.takeWhile Char.isDigit
    let r1 := cs1.dropWhile Char.isDigit
    let fr := splitFrac r1
    let fs := fr.1
    let r2 := fr.2
    if ds.isEmpty && fs.isEmpty then .nan
    else
      let e := parseExponent r2
      let mant : JsRat :=
        ⟨(digitsVal ds : ℤ) * 10 ^ fs.length + (digitsVal fs : ℤ), 10 ^ fs.length⟩
      let v := applyExp mant e
      .num (if neg then ⟨-v.n, v.d⟩ else v)

/-- JavaScript `parseFloat(s)`. -/
def jsParseFloat (s : String) : JsNum :=
  jsParseFloatChars s.toList

/-! ### Currency registry (static tables from the source) -/

def COIN_MAPPINGS : String → Option String := fun c =>
  if c = "tbtc4" then some "TBTC4"
  else if c = "tsol" then some "TSOL"
  else if c = "tada" then some "TADA"
  else if c = "tdoge" then some "TDOGE"
  else none

def VALUE_DIVISORS : String → Option JsRat := fun s =>
  if s = "TBTC4" then some ⟨100000000, 1⟩
  else if s = "TSOL" then some ⟨1000000000, 1⟩
  else if s = "TADA" then some ⟨1000000, 1⟩
  else if s = "TDOGE" then some ⟨100000000, 1⟩
  else none

def DEPOSIT_STATES : String → Option String := fun s =>
  if s = "pending" then some "pending"
  else if s = "confirmed" then some "completed"
  else if s = "failed" then some "failed"
  else if s = "unconfirmed" then some "pending"
  else none

/-! ### Data model: the webhook event and the store rows -/

/-- The destructured webhook event `{ hash, coin, state, receiver, valueString }`. -/
structure WebhookData where
  hash : String
  coin : String
  state : String
  receiver : String
  valueString : String
deriving DecidableEq

/-- A `user_addresses` row. -/
structure AddressRow where
  user_id : String
  crypto : String
  address : String
deriving DecidableEq

/-- A `deposits` row. -/
structure DepositRow where
  user_id : String
  bitgo_uid : ℕ
  crypto : String
  amount : JsNum
  blockchain_tx_hash : String
  status : String
deriving DecidableEq

/-- A `user_balances` row. -/
structure BalanceRow where
  user_id : String
  crypto : String
  balance : JsNum
deriving DecidableEq

/-- Payload stored in the `bitgo_wallet` audit table. -/
inductive AuditPayload where
  | depositEvent : WebhookData → AuditPayload
  | addressGen : String → String → String → AuditPayload
deriving DecidableEq

/-- A `bitgo_wallet` audit row. -/
structure AuditRow where
  bitgo_wallet_id : ℕ
  event_type : String
  payload : AuditPayload
deriving DecidableEq

/-- The relational store: the tables the two flows read and write, plus the
sequence counter backing the audit table's returned ids. -/
structure Store where
  currencies : List String
  user_addresses : List AddressRow
  deposits : List DepositRow
  user_balances : List BalanceRow
  bitgo_wallet : List AuditRow
  nextId : ℕ
deriving DecidableEq

/-! ### Store operations issued by the source -/

/-- The one-query user/currency lookup:
`SELECT ua.user_id, ua.crypto FROM user_addresses ua JOIN currencies c ON
ua.crypto = c.symbol WHERE ua.address = $1 AND c.symbol = $2 LIMIT 1`. -/
def findUserAddress (s : Store) (receiver dbCoinSymbol : String) : Option AddressRow :=
  s.user_addresses.find? (fun ua =>
    ua.address = receiver && ua.crypto = dbCoinSymbol && s.currencies.contains dbCoinSymbol)

/-- `SELECT 1 FROM deposits WHERE blockchain_tx_hash = $1 LIMIT 1`. -/
def findDeposit (s : Store) (hash : String) : Option DepositRow :=
  s.deposits.find? (fun d => d.blockchain_tx_hash = hash)

/-- `INSERT INTO bitgo_wallet (event_type, payload) VALUES ... RETURNING
bitgo_wallet_id`; the returned id of the new row is the current sequence
value `s.nextId`. -/
def insertAudit (s : Store) (eventType : String) (payload : AuditPayload) : Store :=
  { s with bitgo_wallet := s.bitgo_wallet ++ [⟨s.nextId, eventType, payload⟩],
           nextId := s.nextId + 1 }

/-- `INSERT INTO deposits ... VALUES ...`. -/
def insertDeposit (s : Store) (d : DepositRow) : Store :=
  { s with deposits := s.deposits ++ [d] }

/-- The `(user_id, crypto)` key predicate of `user_balances`. -/
def balKey (uid crypto : String) (b : BalanceRow) : Bool :=
  b.user_id = uid && b.crypto = crypto

/-- `INSERT INTO user_balances ... ON CONFLICT (user_id, crypto) DO UPDATE SET
balance = user_balances.balance + EXCLUDED.balance` at the row-list level. -/
def upsertBalList (l : List BalanceRow) (uid crypto : String) (amount : JsNum) :
    List BalanceRow :=
  if l.any (balKey uid crypto) then
    l.map (fun b => if balKey uid crypto b then { b with balance := jsAdd b.balance amount } else b)
  else
    l ++ [⟨uid, crypto, amount⟩]

def upsertBalance (s : Store) (uid crypto : String) (amount : JsNum) : Store :=
  { s with user_balances := upsertBalList s.user_balances uid crypto amount }

/-! ### The deposit ingestor -/

/-- `parseFloat(valueString) / VALUE_DIVISORS[dbCoinSymbol]` (line 72). -/
def depositAmount (w : WebhookData) (dbCoinSymbol : String) : JsNum :=
  jsDiv (jsParseFloat w.valueString) (VALUE_DIVISORS dbCoinSymbol)

/-- `DEPOSIT_STATES[state] || 'pending'` (line 80; every table value is a
truthy string, so `||` is exactly the default-on-missing-key). -/
def depositStatusOf (w : WebhookData) : String :=
  (DEPOSIT_STATES w.state).getD "pending"

/-- `handleDeposit(webhookData)`, the body of the `db.tx` callback.  A `return
false`/`return true` resolves the transaction promise, so every early return
commits whatever was written before it; only a thrown error would roll back,
and no branch of this sequential model throws. -/
def handleDeposit (w : WebhookData) (s : Store) : Bool × Store :=
  match COIN_MAPPINGS w.coin with
  | none => (false, s)
  | some dbCoinSymbol =>
    match findUserAddress s w.receiver dbCoinSymbol with
    | none => (false, s)
    | some userAddress =>
      match findDeposit s w.hash with
      | some _ => (false, s)
      | none =>
        let bitgo_wallet_id := s.nextId
        let s1 := insertAudit s "crypto_deposit" (.depositEvent w)
        let amount := depositAmount w dbCoinSymbol
        if jsIsNaN amount || jsLe0 amount then (false, s1)
        else
          let depositStatus := depositStatusOf w
          let s2 := insertDeposit s1
            ⟨userAddress.user_id, bitgo_wallet_id, dbCoinSymbol, amount, w.hash, depositStatus⟩
          if depositStatus = "completed" then
            (true, upsertBalance s2 userAddress.user_id dbCoinSymbol amount)
          else (true, s2)

/-! ### Webhook front door -/

/-- The raw request body as seen by `router.post('/bitgo')`: each field may be
absent (`none`) or present with a string value. -/
structure RawPayload where
  type : Option String
  hash : Option String
  coin : Option String
  state : Option String
  receiver : Option String
  valueString : Option String
deriving DecidableEq

/-- JavaScript truthiness of an optional string field (`!x` is true exactly
when the field is absent or the empty string). -/
def jsTruthy : Option String → Bool
  | none => false
  | some s => s ≠ ""

/-- The `/bitgo` route handler: returns the HTTP status and, on 200, the
validated event handed to `handleDeposit` via `process.nextTick` (outside the
request/response path).  `none` input models a falsy `req.body`. -/
def acceptWebhook : Option RawPayload → ℕ × Option WebhookData
  | none => (400, none)
  | some p =>
    if p.type ≠ some "transfer" then (400, none)
    else if !(jsTruthy p.hash && jsTruthy p.coin && jsTruthy p.state &&
              jsTruthy p.receiver && jsTruthy p.valueString) then (400, none)
    else (200, some ⟨p.hash.getD "", p.coin.getD "", p.state.getD "",
                     p.receiver.getD "", p.valueString.getD ""⟩)

/-- The deferred `process.nextTick` work: run the ingestor on the handed-off
event, if any (its outcome never reaches the HTTP response). -/
def processAccepted (r : ℕ × Option WebhookData) (s : Store) : Store :=
  match r.2 with
  | some w => (handleDeposit w s).2
  | none => s

/-! ### Address provisioner -/

/-- One entry of the `wallets` configuration array; `walletId` comes from the
environment and may be absent. -/
structure WalletConfig where
  coin : String
  walletId : Option String
deriving DecidableEq

/-- `coin.toUpperCase()` (character-wise ASCII upcasing, written over the
character list so that concrete runs evaluate). -/
def strToUpper (s : String) : String := String.mk (s.toList.map Char.toUpper)

/-- `INSERT INTO user_addresses ... ON CONFLICT (user_id, crypto) DO NOTHING`. -/
def insertAddressIfAbsent (s : Store) (uid crypto addr : String) : Store :=
  if s.user_addresses.any (fun a => a.user_id = uid && a.crypto = crypto) then s
  else { s with user_addresses := s.user_addresses ++ [⟨uid, crypto, addr⟩] }

/-- The body of the persistence loop for one successful `(coin, address)`
pair: the conflict-ignoring address insert followed by the audit insert. -/
def persistPair (uid : String) (s : Store) (pair : String × String) : Store :=
  insertAudit (insertAddressIfAbsent s uid (strToUpper pair.1) pair.2)
    "address_generation" (.addressGen uid pair.1 pair.2)

/-- The network fan-out's successes: configured wallets with a truthy
`walletId` whose address-creation call returned a truthy address.  `net` maps
`(coin, walletId)` to the outcome of that run's request (`none` models a
caught per-request failure, which does not cancel the siblings). -/
def successfulAddresses (cfg : List WalletConfig)
    (net : String → String → Option String) : List (String × String) :=
  (cfg.filter (fun wc => jsTruthy wc.walletId)).filterMap (fun wc =>
    match net wc.coin (wc.walletId.getD "") with
    | some addr => if addr ≠ "" then some (wc.coin, addr) else none
    | none => none)

/-- Result of `generateUserAddresses`: the provider requests issued and the
final store. -/
structure ProvisionResult where
  requests : List (String × String)
  store : Store
deriving DecidableEq

/-- `generateUserAddresses(userId)`: skip everything when the access token is
falsy; otherwise request one address per configured wallet (all dispatched,
failures caught individually), and if any succeeded persist all successes in
one transaction; with zero successes the store is untouched. -/
def generateUserAddresses (accessToken : Option String) (cfg : List WalletConfig)
    (net : String → String → Option String) (userId : String) (s : Store) :
    ProvisionResult :=
  if !(jsTruthy accessToken) then ⟨[], s⟩
  else
    let requested := (cfg.filter (fun wc => jsTruthy wc.walletId)).map
      (fun wc => (wc.coin, wc.walletId.getD ""))
    let succ := successfulAddresses cfg net
    if succ.isEmpty then ⟨requested, s⟩
    else ⟨requested, succ.foldl (persistPair userId) s⟩

/-! ### Branch lemmas for the ingestor -/

/-- The deposit row a fully successful ingestion inserts. -/
def newDepositRow (w : WebhookData) (s : Store) (sym : String) (ua : AddressRow) : DepositRow :=
  ⟨ua.user_id, s.nextId, sym, depositAmount w sym, w.hash, depositStatusOf w⟩

/-- The final store of a fully successful ingestion. -/
def successStore (w : WebhookData) (s : Store) (sym : String) (ua : AddressRow) : Store :=
  let s2 := insertDeposit (insertAudit s "crypto_deposit" (.depositEvent w))
    (newDepositRow w s sym ua)
  if depositStatusOf w = "completed" then
    upsertBalance s2 ua.user_id sym (depositAmount w sym)
  else s2

lemma handleDeposit_success (w : WebhookData) (s : Store) (sym : String) (ua : AddressRow)
    (hc : COIN_MAPPINGS w.coin = some sym)
    (hu : findUserAddress s w.receiver sym = some ua)
    (hd : findDeposit s w.hash = none)
    (hv : (jsIsNaN (depositAmount w sym) || jsLe0 (depositAmount w sym)) = false) :
    handleDeposit w s = (true, successStore w s sym ua) := by
  unfold handleDeposit successStore newDepositRow
  simp only [hc, hu, hd, hv, Bool.false_eq_true, if_false]
  split <;> rfl

lemma handleDeposit_invalid_amount (w : WebhookData) (s : Store) (sym : String) (ua : AddressRow)
    (hc : COIN_MAPPINGS w.coin = some sym)
    (hu : findUserAddress s w.receiver sym = some ua)
    (hd : findDeposit s w.hash = none)
    (hv : (jsIsNaN (depositAmount w sym) || jsLe0 (depositAmount w sym)) = true) :
    handleDeposit w s = (false, insertAudit s "crypto_deposit" (.depositEvent w)) := by
  unfold handleDeposit
  simp only [hc, hu, hd, hv, if_true]

lemma handleDeposit_true_inv (w : WebhookData) (s : Store)
    (h : (handleDeposit w s).1 = true) :
    ∃ sym ua, COIN_MAPPINGS w.coin = some sym ∧
      findUserAddress s w.receiver sym = some ua ∧
      findDeposit s w.hash = none ∧
      (jsIsNaN (depositAmount w sym) || jsLe0 (depositAmount w sym)) = false := by
  unfold handleDeposit at h
  cases hc : COIN_MAPPINGS w.coin with
  | none => simp only [hc] at h; simp at h
  | some sym =>
    simp only [hc] at h
    cases hu : findUserAddress s w.receiver sym with
    | none => simp only [hu] at h; simp at h
    | some ua =>
      simp only [hu] at h
      cases hd : findDeposit s w.hash with
      | some d => simp only [hd] at h; simp at h
      | none =>
        simp only [hd] at h
        cases hv : (jsIsNaN (depositAmount w sym) || jsLe0 (depositAmount w sym)) with
        | true => simp only [hv, if_true] at h; simp at h
        | false => exact ⟨sym, ua, rfl, hu, rfl, hv⟩

/-- Every run of the ingestor leaves the store unchanged, commits only the
audit row, or commits the full success shape. -/
lemma handleDeposit_cases (w : WebhookData) (s : Store) :
    (handleDeposit w s).2 = s ∨
    (handleDeposit w s).2 = insertAudit s "crypto_deposit" (.depositEvent w) ∨
    ∃ sym ua, COIN_MAPPINGS w.coin = some sym ∧
      findUserAddress s w.receiver sym = some ua ∧
      findDeposit s w.hash = none ∧
      (handleDeposit w s).2 = successStore w s sym ua := by
  cases hc : COIN_MAPPINGS w.coin with
  | none => left; simp [handleDeposit, hc]
  | some sym =>
    cases hu : findUserAddress s w.receiver sym with
    | none => left; simp [handleDeposit, hc, hu]
    | some ua =>
      cases hd : findDeposit s w.hash with
      | some d => left; simp [handleDeposit, hc, hu, hd]
      | none =>
        cases hv : (jsIsNaN (depositAmount w sym) || jsLe0 (depositAmount w sym)) with
        | true =>
          right; left
          rw [handleDeposit_invalid_amount w s sym ua hc hu hd hv]
        | false =>
          right; right
          exact ⟨sym, ua, rfl, hu, rfl, by rw [handleDeposit_success w s sym ua hc hu hd hv]⟩

lemma successStore_deposits (w : WebhookData) (s : Store) (sym : String) (ua : AddressRow) :
    (successStore w s sym ua).deposits = s.deposits ++ [newDepositRow w s sym ua] := by
  unfold successStore
  split <;> rfl

lemma successStore_balances (w : WebhookData) (s : Store) (sym : String) (ua : AddressRow) :
    (successStore w s sym ua).user_balances =
      if depositStatusOf w = "completed" then
        upsertBalList s.user_balances ua.user_id sym (depositAmount w sym)
      else s.user_balances := by
  unfold successStore
  split <;> rfl

/-! ### Concrete fixtures for witnesses and counterexamples -/

/-- A store tracking one user address for TBTC4. -/
def demoStore : Store := ⟨["TBTC4"], [⟨"u1", "TBTC4", "addr1"⟩], [], [], [], 1⟩

/-- The spec's worked example event. -/
def demoEvent : WebhookData := ⟨"0xabc", "tbtc4", "confirmed", "addr1", "150000000"⟩

/-- A redelivery of `demoEvent`'s hash with different other fields. -/
def demoDup : WebhookData := ⟨"0xabc", "tbtc4", "failed", "addr1", "999"⟩

/-- An otherwise-valid event whose raw value is "0". -/
def zeroEvent : WebhookData := ⟨"0xzero", "tbtc4", "confirmed", "addr1", "0"⟩

/-- An event whose coin code is not in the registry. -/
def unknownCoinEvent : WebhookData := ⟨"0xq", "xyz", "confirmed", "addr1", "1"⟩

/-! ### C1: idempotency on the blockchain transaction hash -/

/-- C1: after a successful ingestion of an event, exactly one deposit row
carries its `blockchainTxHash`, and ingesting any event with the same hash
again returns `credited=false` and leaves the store exactly as it was. -/
theorem ingest_idempotent (w : WebhookData) (s : Store)
    (h : (handleDeposit w s).1 = true) :
    ((handleDeposit w s).2.deposits.countP
        (fun d => d.blockchain_tx_hash = w.hash) = 1) ∧
    ∀ w' : WebhookData, w'.hash = w.hash →
      handleDeposit w' (handleDeposit w s).2 = (false, (handleDeposit w s).2) := by
  obtain ⟨sym, ua, hc, hu, hd, hv⟩ := handleDeposit_true_inv w s h
  rw [handleDeposit_success w s sym ua hc hu hd hv]
  have hd' := hd
  unfold findDeposit at hd'
  constructor
  · rw [successStore_deposits]
    have h0 : s.deposits.countP (fun d => d.blockchain_tx_hash = w.hash) = 0 := by
      rw [List.countP_eq_zero]
      intro a ha
      simpa using List.find?_eq_none.mp hd' a ha
    simp [List.countP_append, h0, newDepositRow]
  · intro w' hw
    cases hc' : COIN_MAPPINGS w'.coin with
    | none => unfold handleDeposit; simp only [hc']
    | some sym' =>
      cases hu' : findUserAddress (successStore w s sym ua) w'.receiver sym' with
      | none => unfold handleDeposit; simp only [hc', hu']
      | some ua' =>
        cases hfd : findDeposit (successStore w s sym ua) w'.hash with
        | none =>
          exfalso
          unfold findDeposit at hfd
          have hmem : newDepositRow w s sym ua ∈ (successStore w s sym ua).deposits := by
            rw [successStore_deposits]
            exact List.mem_append_right _ (List.mem_singleton_self _)
          have := List.find?_eq_none.mp hfd _ hmem
          apply this
          simp [newDepositRow, hw]
        | some d => unfold handleDeposit; simp only [hc', hu', hfd]

/-- Witness for C1 at the spec's worked example: one deposit row for the
hash, and a concrete redelivery with the same hash is a pure no-op. -/
theorem ingest_idempotent_witness :
    (handleDeposit demoEvent demoStore).1 = true ∧
    ((handleDeposit demoEvent demoStore).2.deposits.countP
        (fun d => d.blockchain_tx_hash = demoEvent.hash) = 1) ∧
    handleDeposit demoDup (handleDeposit demoEvent demoStore).2 =
      (false, (handleDeposit demoEvent demoStore).2) := by
  have h : (handleDeposit demoEvent demoStore).1 = true := by decide
  have hmain := ingest_idempotent demoEvent demoStore h
  exact ⟨h, hmain.1, hmain.2 demoDup (by decide)⟩

/-! ### C3: provider-state mapping -/

/-- C3: an otherwise-valid event inserts a deposit row whose status is the
image of the provider state under `DEPOSIT_STATES` (default `pending`), the
balance list is updated by the atomic upsert exactly when that status is
`completed`, and the table maps `confirmed` to `completed`, `failed` to
`failed`, and `unconfirmed` or any unrecognized state to `pending`. -/
theorem provider_state_mapping (w : WebhookData) (s : Store) (sym : String) (ua : AddressRow)
    (hc : COIN_MAPPINGS w.coin = some sym)
    (hu : findUserAddress s w.receiver sym = some ua)
    (hd : findDeposit s w.hash = none)
    (hv : (jsIsNaN (depositAmount w sym) || jsLe0 (depositAmount w sym)) = false) :
    (handleDeposit w s).1 = true ∧
    (handleDeposit w s).2.deposits = s.deposits ++ [newDepositRow w s sym ua] ∧
    (handleDeposit w s).2.user_balances =
      (if depositStatusOf w = "completed" then
        upsertBalList s.user_balances ua.user_id sym (depositAmount w sym)
      else s.user_balances) ∧
    (w.state = "confirmed" → depositStatusOf w = "completed") ∧
    (w.state = "failed" → depositStatusOf w = "failed") ∧
    ((w.state = "unconfirmed" ∨ DEPOSIT_STATES w.state = none) →
      depositStatusOf w = "pending") := by
  rw [handleDeposit_success w s sym ua hc hu hd hv]
  refine ⟨rfl, successStore_deposits w s sym ua, successStore_balances w s sym ua, ?_, ?_, ?_⟩
  · intro hst; unfold depositStatusOf; rw [hst]; decide
  · intro hst; unfold depositStatusOf; rw [hst]; decide
  · rintro (hst | hst)
    · unfold depositStatusOf; rw [hst]; decide
    · unfold depositStatusOf; rw [hst]; rfl

/-- Witness for C3: the worked example maps `confirmed` to a `completed`
deposit row and updates the balance by upsert. -/
theorem provider_state_mapping_witness :
    (handleDeposit demoEvent demoStore).1 = true ∧
    (handleDeposit demoEvent demoStore).2.deposits =
      demoStore.deposits ++ [newDepositRow demoEvent demoStore "TBTC4" ⟨"u1", "TBTC4", "addr1"⟩] ∧
    (handleDeposit demoEvent demoStore).2.user_balances =
      upsertBalList demoStore.user_balances "u1" "TBTC4"
        (depositAmount demoEvent "TBTC4") ∧
    depositStatusOf demoEvent = "completed" := by
  have hmain := provider_state_mapping demoEvent demoStore "TBTC4" ⟨"u1", "TBTC4", "addr1"⟩
    (by decide) (by decide) (by decide) (by decide)
  have hst : depositStatusOf demoEvent = "completed" := hmain.2.2.2.1 (by decide)
  refine ⟨hmain.1, hmain.2.1, ?_, hst⟩
  have hb := hmain.2.2.1
  rw [hst] at hb
  simpa using hb

/-! ### C5: conversion error commits the audit row only -/

/-- Counterexample to C5 as stated: for a known currency, tracked receiver,
fresh hash and raw value "0", the call returns `credited=false` but the store
is NOT left untouched — the audit row survives the early return (a resolved
transaction promise commits), while no deposit row and no balance change
survive. -/
theorem conversion_error_audit_survives :
    (handleDeposit zeroEvent demoStore).1 = false ∧
    (handleDeposit zeroEvent demoStore).2.bitgo_wallet ≠ demoStore.bitgo_wallet ∧
    (handleDeposit zeroEvent demoStore).2.deposits = [] ∧
    (handleDeposit zeroEvent demoStore).2.user_balances = [] := by decide

/-- C5 (amended): an unparseable or non-positive amount for a known currency,
tracked receiver and fresh hash makes ingest return `credited=false`, with no
deposit row and no balance change, but the transaction commits with exactly
the audit row appended. -/
theorem conversion_error_commits_audit_only (w : WebhookData) (s : Store)
    (sym : String) (ua : AddressRow)
    (hc : COIN_MAPPINGS w.coin = some sym)
    (hu : findUserAddress s w.receiver sym = some ua)
    (hd : findDeposit s w.hash = none)
    (hv : (jsIsNaN (depositAmount w sym) || jsLe0 (depositAmount w sym)) = true) :
    handleDeposit w s = (false, insertAudit s "crypto_deposit" (.depositEvent w)) ∧
    (insertAudit s "crypto_deposit" (.depositEvent w)).deposits = s.deposits ∧
    (insertAudit s "crypto_deposit" (.depositEvent w)).user_balances = s.user_balances ∧
    (insertAudit s "crypto_deposit" (.depositEvent w)).bitgo_wallet =
      s.bitgo_wallet ++ [⟨s.nextId, "crypto_deposit", .depositEvent w⟩] :=
  ⟨handleDeposit_invalid_amount w s sym ua hc hu hd hv, rfl, rfl, rfl⟩

/-- Witness for the amended C5 at raw value "0". -/
theorem conversion_error_commits_audit_only_witness :
    handleDeposit zeroEvent demoStore =
      (false, insertAudit demoStore "crypto_deposit" (.depositEvent zeroEvent)) ∧
    (insertAudit demoStore "crypto_deposit" (.depositEvent zeroEvent)).deposits =
      demoStore.deposits :=
  have hmain := conversion_error_commits_audit_only zeroEvent demoStore "TBTC4"
    ⟨"u1", "TBTC4", "addr1"⟩ (by decide) (by decide) (by decide) (by decide)
  ⟨hmain.1, hmain.2.1⟩

/-! ### C6: unknown currency is a pure no-op -/

/-- C6: an event whose coin code is not in the registry returns
`credited=false` with the store completely unchanged. -/
theorem unknown_currency_rejected (w : WebhookData) (s : Store)
    (h : COIN_MAPPINGS w.coin = none) :
    handleDeposit w s = (false, s) := by
  unfold handleDeposit; simp only [h]

/-- Witness for C6 at coin code "xyz". -/
theorem unknown_currency_rejected_witness :
    COIN_MAPPINGS unknownCoinEvent.coin = none ∧
    handleDeposit unknownCoinEvent demoStore = (false, demoStore) :=
  ⟨by decide, unknown_currency_rejected unknownCoinEvent demoStore (by decide)⟩

/-! ### C2: conservation of balances -/

/-- The `JsRat` zero used as the absent-balance default. -/
def jsZero : JsNum := .num ⟨0, 1⟩

/-- Balance value of `(uid, crypto)` in a balance-row list (`0` if absent). -/
def balGetL (l : List BalanceRow) (uid crypto : String) : JsNum :=
  ((l.find? (balKey uid crypto)).map BalanceRow.balance).getD jsZero

/-- Deposit rows of `(uid, crypto)` with status `completed`. -/
def depKey (uid crypto : String) (d : DepositRow) : Bool :=
  d.user_id = uid && d.crypto = crypto && d.status = "completed"

/-- Sum of the amounts of the completed deposits of `(uid, crypto)`. -/
def compSumL (l : List DepositRow) (uid crypto : String) : JsNum :=
  ((l.filter (depKey uid crypto)).map DepositRow.amount).foldl jsAdd jsZero

def balGet (s : Store) (uid crypto : String) : JsNum := balGetL s.user_balances uid crypto

def completedSum (s : Store) (uid crypto : String) : JsNum := compSumL s.deposits uid crypto

/-- The conservation invariant: every `(user, currency)` balance equals the
sum of that pair's completed deposit amounts. -/
def Conserv (s : Store) : Prop := ∀ uid crypto, balGet s uid crypto = completedSum s uid crypto

lemma jsAdd_jsZero (a : JsNum) : jsAdd jsZero a = a := by
  cases a with
  | num q => simp [jsZero, jsAdd]
  | nan => rfl
  | inf => rfl
  | ninf => rfl

lemma find?_map_of_pred {α : Type} (f : α → α) (p : α → Bool) (l : List α)
    (hp : ∀ x, p (f x) = p x) : (l.map f).find? p = (l.find? p).map f := by
  induction l with
  | nil => rfl
  | cons a t ih =>
    cases h : p a with
    | true =>
      rw [List.map_cons, List.find?_cons_of_pos _ (by rw [hp a]; exact h),
        List.find?_cons_of_pos _ h]
      rfl
    | false =>
      rw [List.map_cons, List.find?_cons_of_neg _ (by rw [hp a]; simp [h]),
        List.find?_cons_of_neg _ (by simp [h]), ih]

lemma balKey_set_balance (uid crypto : String) (x : BalanceRow) (v : JsNum) :
    balKey uid crypto { x with balance := v } = balKey uid crypto x := rfl

lemma balKey_preserved_by_update (uid crypto : String) (a : JsNum) :
    ∀ x : BalanceRow,
      balKey uid crypto
        (if balKey uid crypto x then { x with balance := jsAdd x.balance a } else x) =
      balKey uid crypto x := by
  intro x
  by_cases hx : balKey uid crypto x = true
  · rw [if_pos hx]; rfl
  · rw [if_neg hx]

lemma balKey_preserved_by_update_other (uid crypto uid2 c2 : String) (a : JsNum) :
    ∀ x : BalanceRow,
      balKey uid2 c2
        (if balKey uid crypto x then { x with balance := jsAdd x.balance a } else x) =
      balKey uid2 c2 x := by
  intro x
  by_cases hx : balKey uid crypto x = true
  · rw [if_pos hx]; rfl
  · rw [if_neg hx]

lemma balGetL_upsert_same (l : List BalanceRow) (uid crypto : String) (a : JsNum) :
    balGetL (upsertBalList l uid crypto a) uid crypto = jsAdd (balGetL l uid crypto) a := by
  unfold upsertBalList
  by_cases h : l.any (balKey uid crypto) = true
  · rw [if_pos h]
    unfold balGetL
    rw [find?_map_of_pred _ _ _ (balKey_preserved_by_update uid crypto a)]
    obtain ⟨b, hb⟩ : ∃ b, l.find? (balKey uid crypto) = some b := by
      rw [List.any_eq_true] at h
      obtain ⟨x, hx, hpx⟩ := h
      cases hfind : l.find? (balKey uid crypto) with
      | some b => exact ⟨b, rfl⟩
      | none => exact absurd hpx (List.find?_eq_none.mp hfind x hx)
    rw [hb]
    have hbkey : balKey uid crypto b = true := List.find?_some hb
    simp [hbkey]
  · rw [if_neg h]
    rw [Bool.not_eq_true, List.any_eq_false] at h
    unfold balGetL
    rw [List.find?_append, List.find?_eq_none.mpr (fun x hx => by simp [h x hx])]
    have hrow : balKey uid crypto ⟨uid, crypto, a⟩ = true := by simp [balKey]
    rw [List.find?_cons_of_pos _ hrow]
    simp [jsAdd_jsZero]

lemma balGetL_upsert_other (l : List BalanceRow) (uid crypto : String) (a : JsNum)
    (uid2 c2 : String) (h : ¬(uid = uid2 ∧ crypto = c2)) :
    balGetL (upsertBalList l uid crypto a) uid2 c2 = balGetL l uid2 c2 := by
  unfold upsertBalList
  by_cases hany : l.any (balKey uid crypto) = true
  · rw [if_pos hany]
    unfold balGetL
    rw [find?_map_of_pred _ _ _ (balKey_preserved_by_update_other uid crypto uid2 c2 a)]
    cases hfind : l.find? (balKey uid2 c2) with
    | none => rfl
    | some b =>
      have hbkey : balKey uid2 c2 b = true := List.find?_some hfind
      rw [balKey, Bool.and_eq_true, decide_eq_true_eq, decide_eq_true_eq] at hbkey
      obtain ⟨h1, h2⟩ := hbkey
      have hbkey2 : balKey uid crypto b = false := by
        rw [balKey, h1, h2]
        by_cases e1 : uid2 = uid
        · by_cases e2 : c2 = crypto
          · exact absurd ⟨e1.symm, e2.symm⟩ h
          · simp [e2]
        · simp [e1]
      simp [hbkey2]
  · rw [if_neg hany]
    unfold balGetL
    rw [List.find?_append]
    have hrow : balKey uid2 c2 (⟨uid, crypto, a⟩ : BalanceRow) = false := by
      rw [balKey]
      by_cases e1 : uid = uid2
      · by_cases e2 : crypto = c2
        · exact absurd ⟨e1, e2⟩ h
        · simp [e2]
      · simp [e1]
    rw [List.find?_cons_of_neg _ (by simp [hrow]), List.find?_nil, Option.or_none]

lemma compSumL_append (l : List DepositRow) (row : DepositRow) (uid crypto : String) :
    compSumL (l ++ [row]) uid crypto =
      if depKey uid crypto row then jsAdd (compSumL l uid crypto) row.amount
      else compSumL l uid crypto := by
  by_cases h : depKey uid crypto row = true
  · simp [compSumL, List.filter_append, h, List.foldl_append]
  · rw [Bool.not_eq_true] at h
    simp [compSumL, List.filter_append, h, List.foldl_append]

lemma conserv_step (w : WebhookData) (s : Store) (h : Conserv s) :
    Conserv (handleDeposit w s).2 := by
  rcases handleDeposit_cases w s with heq | heq | ⟨sym, ua, hc, hu, hd, heq⟩
  · rw [heq]; exact h
  · rw [heq]; exact h
  · rw [heq]
    intro uid crypto
    unfold balGet completedSum
    rw [successStore_balances, successStore_deposits, compSumL_append]
    by_cases hst : depositStatusOf w = "completed"
    · rw [if_pos hst]
      by_cases hk : ua.user_id = uid ∧ sym = crypto
      · obtain ⟨h1, h2⟩ := hk
        have hkey : depKey uid crypto (newDepositRow w s sym ua) = true := by
          rw [depKey, newDepositRow]
          simp [h1, h2, hst]
        rw [if_pos hkey, h1, h2, balGetL_upsert_same]
        have hbase := h uid crypto
        unfold balGet completedSum at hbase
        rw [hbase]
        rfl
      · have hkey : depKey uid crypto (newDepositRow w s sym ua) = false := by
          rw [depKey, newDepositRow]
          simp only []
          by_cases e1 : ua.user_id = uid
          · by_cases e2 : sym = crypto
            · exact absurd ⟨e1, e2⟩ hk
            · simp [e2]
          · simp [e1]
        rw [if_neg (by simp [hkey]), balGetL_upsert_other _ _ _ _ _ _ hk]
        exact h uid crypto
    · rw [if_neg hst]
      have hkey : depKey uid crypto (newDepositRow w s sym ua) = false := by
        rw [depKey, newDepositRow]
        simp [hst]
      rw [if_neg (by simp [hkey])]
      exact h uid crypto

/-- The ingestion of a list of webhook events in order. -/
def runDeposits (ws : List WebhookData) (s : Store) : Store :=
  ws.foldl (fun acc w => (handleDeposit w acc).2) s

lemma conserv_run (ws : List WebhookData) (s : Store) (h : Conserv s) :
    Conserv (runDeposits ws s) := by
  induction ws generalizing s with
  | nil => exact h
  | cons w t ih => exact ih (handleDeposit w s).2 (conserv_step w s h)

lemma conserv_of_empty (s : Store) (hdep : s.deposits = []) (hbal : s.user_balances = []) :
    Conserv s := by
  intro uid crypto
  unfold balGet completedSum balGetL compSumL
  rw [hdep, hbal]
  rfl

lemma persistPair_ledger (uid : String) (s : Store) (p : String × String) :
    (persistPair uid s p).deposits = s.deposits ∧
    (persistPair uid s p).user_balances = s.user_balances := by
  unfold persistPair insertAudit insertAddressIfAbsent
  split <;> exact ⟨rfl, rfl⟩

lemma foldl_persist_ledger (uid : String) (pairs : List (String × String)) :
    ∀ s : Store, (pairs.foldl (persistPair uid) s).deposits = s.deposits ∧
      (pairs.foldl (persistPair uid) s).user_balances = s.user_balances := by
  induction pairs with
  | nil => exact fun s => ⟨rfl, rfl⟩
  | cons p t ih =>
    intro s
    rw [List.foldl_cons]
    obtain ⟨h1, h2⟩ := ih (persistPair uid s p)
    obtain ⟨g1, g2⟩ := persistPair_ledger uid s p
    exact ⟨h1.trans g1, h2.trans g2⟩

lemma provision_ledger (tok : Option String) (cfg : List WalletConfig)
    (net : String → String → Option String) (uid : String) (s : Store) :
    (generateUserAddresses tok cfg net uid s).store.deposits = s.deposits ∧
    (generateUserAddresses tok cfg net uid s).store.user_balances = s.user_balances := by
  unfold generateUserAddresses
  split
  · exact ⟨rfl, rfl⟩
  · dsimp only
    split
    · exact ⟨rfl, rfl⟩
    · exact foldl_persist_ledger uid _ s

/-- C2: starting from an empty ledger, after any sequence of ingestions every
`(user, currency)` balance equals the sum of that pair's completed deposit
amounts; moreover a single ingestion and a provisioning call each preserve
the invariant from any state satisfying it. -/
theorem deposit_conservation (ws : List WebhookData) (s0 : Store)
    (hdep : s0.deposits = []) (hbal : s0.user_balances = []) :
    Conserv (runDeposits ws s0) ∧
    (∀ (w : WebhookData) (s : Store), Conserv s → Conserv (handleDeposit w s).2) ∧
    (∀ (tok : Option String) (cfg : List WalletConfig)
      (net : String → String → Option String) (uid : String) (s : Store),
      Conserv s → Conserv (generateUserAddresses tok cfg net uid s).store) := by
  refine ⟨conserv_run ws s0 (conserv_of_empty s0 hdep hbal), conserv_step, ?_⟩
  intro tok cfg net uid s h uid2 c2
  obtain ⟨h1, h2⟩ := provision_ledger tok cfg net uid s
  unfold balGet completedSum
  rw [h1, h2]
  exact h uid2 c2

/-- Witness for C2: the invariant holds concretely after ingesting the worked
example, a duplicate of it, and a zero-amount event from the demo store. -/
theorem deposit_conservation_witness :
    Conserv (runDeposits [demoEvent, demoDup, zeroEvent] demoStore) :=
  (deposit_conservation [demoEvent, demoDup, zeroEvent] demoStore rfl rfl).1

/-! ### C4: amount conversion -/

/-- Lines 72–77 as a single conversion: the computed amount, or `none`
exactly when the handler's `isNaN(amount) || amount <= 0` guard fires. -/
def toDecimalCode (raw : String) (divisor : Option JsRat) : Option JsNum :=
  let amount := jsDiv (jsParseFloat raw) divisor
  if jsIsNaN amount || jsLe0 amount then none else some amount

/-- Modelled from the spec: the "parses the string as a non-negative integer"
step of `toDecimal` — defined for comparison with the code's `parseFloat`. -/
def parseNonNegInt (s : String) : Option ℕ :=
  if s.toList ≠ [] ∧ (∀ c ∈ s.toList, c.isDigit = true) then some (digitsVal s.toList)
  else none

/-- Modelled from the spec: `toDecimal(rawIntegerString, descriptor)` parses
the string as a non-negative integer, divides by `unitDivisor`, and fails
with `InvalidAmount` if parsing fails or the result is ≤ 0. -/
def toDecimalSpec (raw : String) (divisor : ℚ) : Option ℚ :=
  match parseNonNegInt raw with
  | none => none
  | some k => if (k : ℚ) / divisor ≤ 0 then none else some ((k : ℚ) / divisor)

/-- The rational value of a conversion result (finite values only). -/
def amountVal : Option JsNum → Option ℚ
  | some (.num q) => some q.toRat
  | some _ => none
  | none => none

lemma digit_not_ws {c : Char} (h : c.isDigit = true) : isJsWhitespace c = false := by
  cases hw : isJsWhitespace c
  · rfl
  · exfalso
    have hcases : c = ' ' ∨ c = '\t' ∨ c = '\n' ∨ c = '\r' ∨ c = '\x0b' ∨ c = '\x0c' := by
      simpa [isJsWhitespace, or_assoc] using hw
    rcases hcases with h1 | h1 | h1 | h1 | h1 | h1 <;> subst h1 <;> exact absurd h (by decide)

lemma digit_ne_of {c : Char} (h : c.isDigit = true) {d : Char} (hd : d.isDigit = false) :
    c ≠ d := fun he => by rw [he, hd] at h; exact Bool.false_ne_true h

lemma takeWhile_all {α : Type} (p : α → Bool) (l : List α) (h : ∀ x ∈ l, p x = true) :
    l.takeWhile p = l := by
  induction l with
  | nil => rfl
  | cons a t ih =>
    rw [List.takeWhile_cons, h a (by simp)]
    simp only [if_true]
    rw [ih (fun x hx => h x (by simp [hx]))]

lemma dropWhile_all {α : Type} (p : α → Bool) (l : List α) (h : ∀ x ∈ l, p x = true) :
    l.dropWhile p = [] := by
  induction l with
  | nil => rfl
  | cons a t ih =>
    rw [List.dropWhile_cons, h a (by simp)]
    simp only [if_true]
    exact ih (fun x hx => h x (by simp [hx]))

lemma jsParseFloatChars_digits (c : Char) (cs : List Char)
    (hall : ∀ x ∈ c :: cs, x.isDigit = true) :
    jsParseFloatChars (c :: cs) = .num ⟨(digitsVal (c :: cs) : ℤ), 1⟩ := by
  have hc : c.isDigit = true := hall c (by simp)
  have hno_ws : isJsWhitespace c = false := digit_not_ws hc
  have hplus : c ≠ '+' := digit_ne_of hc (by decide)
  have hminus : c ≠ '-' := digit_ne_of hc (by decide)
  have hstart : startsWithChars infinityChars (c :: cs) = false := by
    rw [infinityChars]
    rw [show startsWithChars ('I' :: ['n', 'f', 'i', 'n', 'i', 't', 'y']) (c :: cs) =
      (('I' = c) && startsWithChars ['n', 'f', 'i', 'n', 'i', 't', 'y'] cs) from rfl]
    have : ('I' = c) = False := by
      refine eq_false fun he => ?_
      rw [← he] at hc
      exact absurd hc (by decide)
    simp [this]
  unfold jsParseFloatChars
  rw [List.dropWhile_cons, hno_ws]
  simp only [Bool.false_eq_true, if_false]
  rw [splitSign]
  rw [if_neg hplus, if_neg hminus]
  simp only
  rw [hstart]
  simp only [Bool.false_eq_true, if_false]
  rw [takeWhile_all _ _ hall, dropWhile_all _ _ hall]
  rw [splitFrac]
  simp only [List.isEmpty_cons, Bool.false_and, Bool.false_eq_true, if_false,
    List.length_nil, pow_zero, parseExponent, applyExp]
  have hz : digitsVal ([] : List Char) = 0 := rfl
  rw [hz]
  norm_num

lemma jsParseFloat_of_parseNonNegInt (s : String) (k : ℕ)
    (h : parseNonNegInt s = some k) :
    jsParseFloat s = .num ⟨(k : ℤ), 1⟩ := by
  unfold parseNonNegInt at h
  split at h
  case isTrue hcond =>
    obtain ⟨hne, hall⟩ := hcond
    injection h with h
    subst h
    unfold jsParseFloat
    cases hl : s.toList with
    | nil => exact absurd hl hne
    | cons c cs =>
      rw [hl] at hall
      exact jsParseFloatChars_digits c cs hall
  case isFalse => exact absurd h (by simp)

/-- Counterexample to C4 as stated: rawValue "0.5" is not a non-negative
integer string — the spec's described parse fails — yet the code's conversion
(JavaScript `parseFloat`) accepts it and produces the positive amount
5/1000000000, so ingestion proceeds instead of failing with InvalidAmount. -/
theorem amount_conversion_counterexample :
    parseNonNegInt "0.5" = none ∧
    toDecimalCode "0.5" (some ⟨100000000, 1⟩) = some (.num ⟨5, 1000000000⟩) ∧
    JsRat.toRat ⟨5, 1000000000⟩ = 1 / 200000000 := by
  refine ⟨by decide, by decide, ?_⟩
  rw [JsRat.toRat]
  norm_num

/-- C4 (amended): the conversion parses rawValue with JavaScript `parseFloat`
semantics (fractional, exponent and numeric-prefix strings included, not only
non-negative integers), divides by the unit divisor, and fails exactly when
the parsed amount is NaN or ≤ 0; on strings that do parse as non-negative
integers it agrees with the spec's integer-parse description, and
"150000000" over divisor 100000000 yields 1.5. -/
theorem amount_conversion_amended :
    (∀ (raw : String) (d : Option JsRat),
      toDecimalCode raw d = none ↔
        (jsIsNaN (jsDiv (jsParseFloat raw) d) || jsLe0 (jsDiv (jsParseFloat raw) d)) = true) ∧
    (∀ (raw : String) (k : ℕ) (r : JsRat), parseNonNegInt raw = some k →
      0 < r.n → 0 < r.d →
      amountVal (toDecimalCode raw (some r)) = toDecimalSpec raw r.toRat) ∧
    amountVal (toDecimalCode "150000000" (some ⟨100000000, 1⟩)) = some (3 / 2) := by
  refine ⟨?_, ?_, ?_⟩
  · intro raw d
    unfold toDecimalCode
    by_cases h : (jsIsNaN (jsDiv (jsParseFloat raw) d) || jsLe0 (jsDiv (jsParseFloat raw) d)) = true
    · simp [h]
    · simp [h]
  · intro raw k r hp hrn hrd
    unfold toDecimalCode
    rw [jsParseFloat_of_parseNonNegInt raw k hp]
    rw [show jsDiv (.num ⟨(k : ℤ), 1⟩) (some r) = .num ⟨(k : ℤ) * r.d, 1 * r.n⟩ by
      simp only [jsDiv]
      rw [if_neg (by omega), if_pos hrn]]
    simp only [toDecimalSpec, hp]
    by_cases hk : k = 0
    · subst hk
      have hcond : (jsIsNaN (.num ⟨((0 : ℕ) : ℤ) * r.d, 1 * r.n⟩) ||
          jsLe0 (.num ⟨((0 : ℕ) : ℤ) * r.d, 1 * r.n⟩)) = true := by
        simp [jsIsNaN, jsLe0]
      rw [if_pos hcond, if_pos (by norm_num)]
      rfl
    · have hkpos : (0 : ℤ) < (k : ℤ) := by omega
      have hnum : ¬ ((k : ℤ) * r.d ≤ 0) := not_le.mpr (mul_pos hkpos hrd)
      have hcond : (jsIsNaN (.num ⟨(k : ℤ) * r.d, 1 * r.n⟩) ||
          jsLe0 (.num ⟨(k : ℤ) * r.d, 1 * r.n⟩)) = false := by
        simp only [jsIsNaN, jsLe0, Bool.false_or, decide_eq_false_iff_not]
        exact hnum
      rw [hcond]
      simp only [Bool.false_eq_true, if_false]
      have hq : ¬ ((k : ℚ) / r.toRat ≤ 0) := by
        push_neg
        have h1 : (0 : ℚ) < (r.n : ℚ) / (r.d : ℚ) :=
          div_pos (by exact_mod_cast hrn) (by exact_mod_cast hrd)
        have h2 : (0 : ℚ) < (k : ℚ) := by exact_mod_cast hkpos
        rw [JsRat.toRat]
        exact div_pos h2 h1
      rw [if_neg hq]
      rw [show amountVal (some (.num ⟨(k : ℤ) * r.d, 1 * r.n⟩)) =
        some (JsRat.toRat ⟨(k : ℤ) * r.d, 1 * r.n⟩) from rfl]
      congr 1
      rw [JsRat.toRat, JsRat.toRat]
      have hdn : (r.d : ℚ) ≠ 0 := Int.cast_ne_zero.mpr (by omega)
      have hnn : (r.n : ℚ) ≠ 0 := Int.cast_ne_zero.mpr (by omega)
      push_cast
      field_simp
  · rw [show toDecimalCode "150000000" (some ⟨100000000, 1⟩) =
      some (.num ⟨150000000, 100000000⟩) from by decide]
    rw [amountVal, JsRat.toRat]
    norm_num

/-- Witness for the amended C4: the worked example agrees with the spec-side
integer-parse conversion, and an unparseable rawValue is rejected. -/
theorem amount_conversion_amended_witness :
    amountVal (toDecimalCode "150000000" (some ⟨100000000, 1⟩)) =
      toDecimalSpec "150000000" (JsRat.toRat ⟨100000000, 1⟩) ∧
    toDecimalCode "abc" (some ⟨100000000, 1⟩) = none := by
  constructor
  · exact amount_conversion_amended.2.1 "150000000" 150000000 ⟨100000000, 1⟩
      (by decide) (by decide) (by decide)
  · exact (amount_conversion_amended.1 "abc" (some ⟨100000000, 1⟩)).mpr (by decide)

/-! ### C7: the webhook front door -/

/-- The rejection condition the route actually implements: falsy body, wrong
type discriminator, or any required field absent or empty (JavaScript
falsiness of a string field). -/
def rejectCond : Option RawPayload → Bool
  | none => true
  | some p => p.type ≠ some "transfer" ||
      !(jsTruthy p.hash && jsTruthy p.coin && jsTruthy p.state &&
        jsTruthy p.receiver && jsTruthy p.valueString)

/-- A structurally complete payload (the worked example's fields). -/
def goodPayload : RawPayload :=
  ⟨some "transfer", some "0xabc", some "tbtc4", some "confirmed",
   some "addr1", some "150000000"⟩

/-- A payload whose `hash` field is present but empty. -/
def emptyHashPayload : RawPayload :=
  ⟨some "transfer", some "", some "tbtc4", some "confirmed",
   some "addr1", some "150000000"⟩

/-- Counterexample to C7 as stated: a payload with type "transfer" and all
five required fields present (hash = "") is rejected with 400, although no
field is absent — the route tests JavaScript falsiness, not absence. -/
theorem front_door_counterexample :
    (acceptWebhook (some emptyHashPayload)).1 = 400 ∧
    emptyHashPayload.type = some "transfer" ∧
    emptyHashPayload.hash ≠ none ∧ emptyHashPayload.coin ≠ none ∧
    emptyHashPayload.state ≠ none ∧ emptyHashPayload.receiver ≠ none ∧
    emptyHashPayload.valueString ≠ none := by decide

/-- C7 (amended): the route answers 400 exactly when the body is falsy, the
type discriminator is not "transfer", or a required field is absent or empty;
a 400 hands nothing to the ingestor and has no store effect, and otherwise it
answers 200 immediately with the event handed off for processing outside the
request path (the response never depends on the ingestor's outcome). -/
theorem front_door_amended (body : Option RawPayload) :
    ((acceptWebhook body).1 = 400 ↔ rejectCond body = true) ∧
    ((acceptWebhook body).1 ≠ 400 → (acceptWebhook body).1 = 200) ∧
    ((acceptWebhook body).1 = 400 →
      (acceptWebhook body).2 = none ∧ ∀ s, processAccepted (acceptWebhook body) s = s) ∧
    (rejectCond body = false → ∃ w, acceptWebhook body = (200, some w)) := by
  cases body with
  | none =>
    refine ⟨by simp [acceptWebhook, rejectCond], ?_, ?_, ?_⟩
    · intro h; exact absurd rfl h
    · intro _; exact ⟨rfl, fun s => rfl⟩
    · intro h; exact absurd h (by decide)
  | some p =>
    by_cases h1 : p.type = some "transfer"
    · by_cases h2 : (jsTruthy p.hash && jsTruthy p.coin && jsTruthy p.state &&
          jsTruthy p.receiver && jsTruthy p.valueString) = true
      · have hacc : acceptWebhook (some p) = (200, some ⟨p.hash.getD "", p.coin.getD "",
            p.state.getD "", p.receiver.getD "", p.valueString.getD ""⟩) := by
          simp only [acceptWebhook]
          rw [if_neg (not_not_intro h1), if_neg (by rw [h2]; simp)]
        have hrej : rejectCond (some p) = false := by
          simp only [rejectCond]
          rw [h2]
          simp [h1]
        rw [hacc, hrej]
        exact ⟨by simp, fun _ => rfl,
          fun h => absurd h (by simp), fun _ => ⟨_, rfl⟩⟩
      · have h2f : (jsTruthy p.hash && jsTruthy p.coin && jsTruthy p.state &&
            jsTruthy p.receiver && jsTruthy p.valueString) = false :=
          Bool.eq_false_iff.mpr h2
        have hacc : acceptWebhook (some p) = (400, none) := by
          simp only [acceptWebhook]
          rw [if_neg (not_not_intro h1), if_pos (by rw [h2f]; rfl)]
        have hrej : rejectCond (some p) = true := by
          simp only [rejectCond]
          rw [h2f]
          simp
        rw [hacc, hrej]
        exact ⟨by simp, fun h => absurd rfl h,
          fun _ => ⟨rfl, fun s => rfl⟩, fun h => absurd h (by decide)⟩
    · have hacc : acceptWebhook (some p) = (400, none) := by
        simp only [acceptWebhook]
        rw [if_pos h1]
      have hrej : rejectCond (some p) = true := by
        simp only [rejectCond]
        simp [h1]
      rw [hacc, hrej]
      exact ⟨by simp, fun h => absurd rfl h,
        fun _ => ⟨rfl, fun s => rfl⟩, fun h => absurd h (by decide)⟩

/-- Witness for the amended C7: a complete payload is accepted with 200 and a
handed-off event; a falsy body is rejected with 400 and no store effect. -/
theorem front_door_amended_witness :
    (∃ w, acceptWebhook (some goodPayload) = (200, some w)) ∧
    (acceptWebhook none).1 = 400 ∧
    (∀ s : Store, processAccepted (acceptWebhook none) s = s) := by
  refine ⟨(front_door_amended (some goodPayload)).2.2.2 (by decide), ?_, ?_⟩
  · exact ((front_door_amended none).1).mpr (by decide)
  · exact (((front_door_amended none).2.2.1)
      (((front_door_amended none).1).mpr (by decide))).2

/-! ### C8, C9, C10: the address provisioner -/

/-- The `user_addresses` rows belonging to one user. -/
def addressRowsFor (s : Store) (uid : String) : List AddressRow :=
  s.user_addresses.filter (fun a => a.user_id = uid)

/-- Number of `user_addresses` rows with a given `(userId, currency)` key. -/
def countKey (l : List AddressRow) (uid crypto : String) : ℕ :=
  l.countP (fun a => a.user_id = uid && a.crypto = crypto)

/-- A sample configuration: four wallets, all with wallet ids. -/
def demoCfg : List WalletConfig :=
  [⟨"tbtc4", some "w1"⟩, ⟨"tsol", some "w2"⟩, ⟨"tada", some "w3"⟩, ⟨"tdoge", some "w4"⟩]

/-- A sample run outcome: the tsol and tada requests fail, the other two
succeed. -/
def demoNet : String → String → Option String := fun c _ =>
  if c = "tbtc4" then some "baddr" else if c = "tdoge" then some "daddr" else none

lemma persistPair_addresses_absent (uid : String) (s : Store) (p : String × String)
    (habs : s.user_addresses.any
      (fun a => a.user_id = uid && a.crypto = strToUpper p.1) = false) :
    (persistPair uid s p).user_addresses =
      s.user_addresses ++ [⟨uid, strToUpper p.1, p.2⟩] := by
  unfold persistPair insertAudit insertAddressIfAbsent
  rw [if_neg (by rw [habs]; simp)]

lemma foldl_persist_addresses (uid : String) (pairs : List (String × String)) :
    ∀ s : Store,
      ((pairs.map (fun p => strToUpper p.1)).Nodup) →
      (∀ p ∈ pairs, ∀ a ∈ s.user_addresses, ¬(a.user_id = uid ∧ a.crypto = strToUpper p.1)) →
      (pairs.foldl (persistPair uid) s).user_addresses =
        s.user_addresses ++ pairs.map (fun p => (⟨uid, strToUpper p.1, p.2⟩ : AddressRow)) := by
  induction pairs with
  | nil => intro s _ _; simp
  | cons p t ih =>
    intro s hnd hdisj
    rw [List.map_cons] at hnd
    have hnd' := List.nodup_cons.mp hnd
    have habs : s.user_addresses.any
        (fun a => a.user_id = uid && a.crypto = strToUpper p.1) = false := by
      rw [List.any_eq_false]
      intro a ha
      have := hdisj p (by simp) a ha
      simp only [Bool.and_eq_true, decide_eq_true_eq]
      tauto
    have hstep := persistPair_addresses_absent uid s p habs
    rw [List.foldl_cons, ih (persistPair uid s p) hnd'.2 ?_]
    · rw [hstep, List.map_cons, List.append_assoc, List.singleton_append]
    · intro q hq a ha
      rw [hstep] at ha
      rcases List.mem_append.mp ha with hmem | hmem
      · exact hdisj q (by simp [hq]) a hmem
      · rw [List.mem_singleton] at hmem
        subst hmem
        rintro ⟨_, hcr⟩
        have hne : strToUpper q.1 ≠ strToUpper p.1 := by
          intro he
          exact hnd'.1 (by rw [← he]; exact List.mem_map.mpr ⟨q, hq, rfl⟩)
        exact hne hcr.symm

/-- C8: with the token present, a fresh user, and pairwise-distinct success
currencies, provisioning issues one request per configured wallet regardless
of per-request outcomes, persists an address row for exactly the successful
`(currency, address)` pairs, and does not touch the store when nothing
succeeded (the call is total — no error reaches the caller). -/
theorem provisioning_partial_failure (tok : Option String) (cfg : List WalletConfig)
    (net : String → String → Option String) (uid : String) (s : Store)
    (htok : jsTruthy tok = true)
    (hfresh : addressRowsFor s uid = [])
    (hnodup : ((successfulAddresses cfg net).map (fun p => strToUpper p.1)).Nodup) :
    (generateUserAddresses tok cfg net uid s).requests =
      (cfg.filter (fun wc => jsTruthy wc.walletId)).map
        (fun wc => (wc.coin, wc.walletId.getD "")) ∧
    addressRowsFor (generateUserAddresses tok cfg net uid s).store uid =
      (successfulAddresses cfg net).map
        (fun p => (⟨uid, strToUpper p.1, p.2⟩ : AddressRow)) ∧
    (successfulAddresses cfg net = [] →
      (generateUserAddresses tok cfg net uid s).store = s) := by
  unfold generateUserAddresses
  rw [if_neg (by rw [htok]; simp)]
  dsimp only
  by_cases hsucc : (successfulAddresses cfg net).isEmpty = true
  · rw [if_pos hsucc]
    have he : successfulAddresses cfg net = [] := by
      cases hc : successfulAddresses cfg net with
      | nil => rfl
      | cons a t => rw [hc] at hsucc; simp at hsucc
    refine ⟨rfl, ?_, fun _ => rfl⟩
    rw [he, List.map_nil]
    exact hfresh
  · rw [if_neg hsucc]
    unfold addressRowsFor at hfresh
    have hfa := List.filter_eq_nil_iff.mp hfresh
    have hdisj : ∀ p ∈ successfulAddresses cfg net, ∀ a ∈ s.user_addresses,
        ¬(a.user_id = uid ∧ a.crypto = strToUpper p.1) := by
      intro q _ a ha hk
      exact hfa a ha (by simp [hk.1])
    refine ⟨rfl, ?_, fun he => absurd (by rw [he]; rfl) hsucc⟩
    unfold addressRowsFor
    rw [foldl_persist_addresses uid (successfulAddresses cfg net) s hnodup hdisj,
      List.filter_append, hfresh, List.nil_append]
    apply List.filter_eq_self.mpr
    intro a ha
    obtain ⟨q, _, rfl⟩ := List.mem_map.mp ha
    simp

/-- Witness for C8: with 2 of 4 requests failing, all four wallets are
requested and exactly the two successful rows are persisted for the user. -/
theorem provisioning_partial_failure_witness :
    (generateUserAddresses (some "tok") demoCfg demoNet "u9" demoStore).requests =
      [("tbtc4", "w1"), ("tsol", "w2"), ("tada", "w3"), ("tdoge", "w4")] ∧
    addressRowsFor (generateUserAddresses (some "tok") demoCfg demoNet "u9" demoStore).store
      "u9" = [⟨"u9", "TBTC4", "baddr"⟩, ⟨"u9", "TDOGE", "daddr"⟩] := by
  have hmain := provisioning_partial_failure (some "tok") demoCfg demoNet "u9" demoStore
    (by decide) (by decide) (by decide)
  exact ⟨hmain.1.trans (by decide), hmain.2.1.trans (by decide)⟩

lemma countP_singleton {α : Type} (q : α → Bool) (x : α) :
    List.countP q [x] = if q x then 1 else 0 := by
  simp [List.countP_cons]

lemma countKey_insertAddressIfAbsent (s : Store) (u c addr uid crypto : String)
    (h : countKey s.user_addresses uid crypto ≤ 1) :
    countKey (insertAddressIfAbsent s u c addr).user_addresses uid crypto ≤ 1 := by
  unfold insertAddressIfAbsent
  by_cases hany : (s.user_addresses.any (fun a => a.user_id = u && a.crypto = c)) = true
  · rw [if_pos hany]; exact h
  · rw [if_neg hany]
    unfold countKey at h ⊢
    rw [List.countP_append, countP_singleton]
    by_cases hrow : ((fun a : AddressRow => a.user_id = uid && a.crypto = crypto)
        ⟨u, c, addr⟩) = true
    · rw [if_pos hrow]
      simp only [Bool.and_eq_true, decide_eq_true_eq] at hrow
      obtain ⟨h1, h2⟩ := hrow
      have hzero : s.user_addresses.countP
          (fun a => a.user_id = uid && a.crypto = crypto) = 0 := by
        rw [List.countP_eq_zero]
        intro a ha
        have hall := List.any_eq_false.mp (Bool.eq_false_iff.mpr hany) a ha
        subst h1; subst h2
        exact hall
      omega
    · rw [if_neg hrow]
      omega

lemma countKey_persistPair (uid0 : String) (s : Store) (p : String × String)
    (uid crypto : String) (h : countKey s.user_addresses uid crypto ≤ 1) :
    countKey (persistPair uid0 s p).user_addresses uid crypto ≤ 1 :=
  countKey_insertAddressIfAbsent s uid0 (strToUpper p.1) p.2 uid crypto h

lemma countKey_foldl_persist (uid0 uid crypto : String) (pairs : List (String × String)) :
    ∀ s : Store, countKey s.user_addresses uid crypto ≤ 1 →
      countKey ((pairs.foldl (persistPair uid0) s)).user_addresses uid crypto ≤ 1 := by
  induction pairs with
  | nil => exact fun s h => h
  | cons p t ih =>
    intro s h
    rw [List.foldl_cons]
    exact ih (persistPair uid0 s p) (countKey_persistPair uid0 s p uid crypto h)

lemma countKey_provision (tok : Option String) (cfg : List WalletConfig)
    (net : String → String → Option String) (uid0 uid crypto : String) (s : Store)
    (h : countKey s.user_addresses uid crypto ≤ 1) :
    countKey (generateUserAddresses tok cfg net uid0 s).store.user_addresses uid crypto ≤ 1 := by
  unfold generateUserAddresses
  split
  · exact h
  · dsimp only
    split
    · exact h
    · exact countKey_foldl_persist uid0 uid crypto _ s h

lemma persistPair_append (uid0 : String) (s : Store) (p : String × String) :
    ∃ t, (persistPair uid0 s p).user_addresses = s.user_addresses ++ t := by
  unfold persistPair insertAudit insertAddressIfAbsent
  split
  · exact ⟨[], by simp⟩
  · exact ⟨[⟨uid0, strToUpper p.1, p.2⟩], rfl⟩

lemma foldl_persist_append (uid0 : String) (pairs : List (String × String)) :
    ∀ s : Store, ∃ t,
      ((pairs.foldl (persistPair uid0) s)).user_addresses = s.user_addresses ++ t := by
  induction pairs with
  | nil => exact fun s => ⟨[], by simp⟩
  | cons p t ih =>
    intro s
    obtain ⟨t1, h1⟩ := persistPair_append uid0 s p
    obtain ⟨t2, h2⟩ := ih (persistPair uid0 s p)
    exact ⟨t1 ++ t2, by rw [List.foldl_cons, h2, h1, List.append_assoc]⟩

lemma provision_addresses_append (tok : Option String) (cfg : List WalletConfig)
    (net : String → String → Option String) (uid0 : String) (s : Store) :
    ∃ t, (generateUserAddresses tok cfg net uid0 s).store.user_addresses =
      s.user_addresses ++ t := by
  unfold generateUserAddresses
  split
  · exact ⟨[], by simp⟩
  · dsimp only
    split
    · exact ⟨[], by simp⟩
    · exact foldl_persist_append uid0 _ s

/-- C9: from a state with at most one address row per `(userId, currency)`
key, two provisioning runs (with any tokens, configurations and network
outcomes) still leave at most one row per key, and each run only appends —
every pre-existing AddressRecord survives unchanged, in place. -/
theorem provisioning_idempotent (tok1 tok2 : Option String)
    (cfg1 cfg2 : List WalletConfig) (net1 net2 : String → String → Option String)
    (uid0 uid crypto : String) (s : Store)
    (h : countKey s.user_addresses uid crypto ≤ 1) :
    countKey ((generateUserAddresses tok2 cfg2 net2 uid0
        (generateUserAddresses tok1 cfg1 net1 uid0 s).store).store).user_addresses
      uid crypto ≤ 1 ∧
    (∃ t1, (generateUserAddresses tok1 cfg1 net1 uid0 s).store.user_addresses =
        s.user_addresses ++ t1) ∧
    (∃ t2, ((generateUserAddresses tok2 cfg2 net2 uid0
        (generateUserAddresses tok1 cfg1 net1 uid0 s).store).store).user_addresses =
        (generateUserAddresses tok1 cfg1 net1 uid0 s).store.user_addresses ++ t2) :=
  ⟨countKey_provision tok2 cfg2 net2 uid0 uid crypto _
      (countKey_provision tok1 cfg1 net1 uid0 uid crypto s h),
   provision_addresses_append tok1 cfg1 net1 uid0 s,
   provision_addresses_append tok2 cfg2 net2 uid0 _⟩

/-- Witness for C9: a concrete double provisioning of the same user keeps at
most one row for the `(u9, TBTC4)` key. -/
theorem provisioning_idempotent_witness :
    countKey ((generateUserAddresses (some "tok") demoCfg demoNet "u9"
        (generateUserAddresses (some "tok") demoCfg demoNet "u9" demoStore).store).store).user_addresses
      "u9" "TBTC4" ≤ 1 :=
  (provisioning_idempotent (some "tok") (some "tok") demoCfg demoCfg demoNet demoNet
    "u9" "u9" "TBTC4" demoStore (by decide)).1

/-- C10: with a falsy BitGo access token the provisioner returns immediately:
no provider request is issued, the store is untouched, and no error is raised
(the function is total and yields the unchanged store). -/
theorem missing_token_skips_provisioning (tok : Option String) (cfg : List WalletConfig)
    (net : String → String → Option String) (uid : String) (s : Store)
    (h : jsTruthy tok = false) :
    generateUserAddresses tok cfg net uid s = ⟨[], s⟩ := by
  unfold generateUserAddresses
  rw [if_pos (by rw [h]; rfl)]

/-- Witness for C10 at an absent token. -/
theorem missing_token_skips_provisioning_witness :
    jsTruthy none = false ∧
    generateUserAddresses none demoCfg demoNet "u9" demoStore = ⟨[], demoStore⟩ :=
  ⟨rfl, missing_token_skips_provisioning none demoCfg demoNet "u9" demoStore rfl⟩

end TempUploads
